import Mathlib

/-!
Shallow embedding of `.github/scripts/lang_stats.py` and proofs about it.

Documents are modelled as `List Char`.  Python's `re.sub` on the pattern
`<!-- LANGUAGES:START -->.*?<!-- LANGUAGES:END -->` (with `re.DOTALL`) is
modelled by `subAll`: it repeatedly finds the leftmost start marker, then the
first end marker after it (lazy `.*?`), replaces the span, and continues after
the replaced span, exactly as `re.sub` does for this pattern.  The `repl`
string handed to `re.sub` is a replacement template: `parseTemplate` models
`re`'s template parsing for this zero-capture-group pattern (`\g<0>` expands
to the whole matched span, `\\` collapses, the known letter escapes denote
control characters, octal escapes denote characters, any other ASCII-letter
escape or group reference raises `re.error`, and a backslash before any other
character is kept as both characters), so `update_readme` returns `none`
exactly when the script's `re.sub` call raises.
-/

namespace LangStats

/-- The exact start-marker literal from `update_readme`. -/
def START : List Char := "<!-- LANGUAGES:START -->".toList

/-- The exact end-marker literal from `update_readme`. -/
def END : List Char := "<!-- LANGUAGES:END -->".toList

/-- Find the first occurrence of `needle` in a list: returns `(before, after)`
with `s = before ++ needle ++ after`, splitting at the leftmost occurrence. -/
def splitFirst (needle : List Char) : List Char → Option (List Char × List Char)
  | [] => if needle.isPrefixOf ([] : List Char) then some ([], []) else none
  | c :: rest =>
      if needle.isPrefixOf (c :: rest) then some ([], (c :: rest).drop needle.length)
      else (splitFirst needle rest).map (fun p => (c :: p.1, p.2))

/-- The replacement text built in `update_readme`:
`f"<!-- LANGUAGES:START -->\n{new_block}\n<!-- LANGUAGES:END -->"`. -/
def replacement (body : List Char) : List Char :=
  START ++ '\n' :: (body ++ '\n' :: END)

/-- A piece of a parsed `re.sub` replacement template for a pattern with no
capture groups: literal text, or a whole-match reference (`\g<0>`). -/
inductive TemplatePiece where
  | lit (s : List Char)
  | group0
deriving DecidableEq

/-- Prepend a literal character to a parsed template, merging it into a
leading literal piece. -/
def consLit (c : Char) : List TemplatePiece → List TemplatePiece
  | .lit s :: ps => .lit (c :: s) :: ps
  | ps => .lit [c] :: ps

/-- Octal digit test. -/
def isOct (c : Char) : Bool := '0' ≤ c && c ≤ '7'

/-- Value of an octal digit. -/
def octVal (c : Char) : Nat := c.toNat - '0'.toNat

/-- The contribution of one parsed escape sequence. -/
inductive EscapeStep where
  | chr (c : Char)
  | lit2 (c : Char)
  | group0
deriving DecidableEq

/-- Parse one escape sequence (the text after a backslash): the contribution
and the unconsumed remainder, or `none` for the template errors `re` raises
(trailing backslash, unknown ASCII-letter escape, malformed `\\g<…>`, an
out-of-range octal value, or a reference to a group other than 0 — the marker
pattern has no capture groups).  `lit2 c` keeps the backslash and `c` as both
characters, as `re` does for non-letter non-digit escapes.  A `\g<…>` name
that is not a plain digit string is treated as the error current Python
raises (it was only a deprecation warning up to Python 3.11). -/
def parseEscape : List Char → Option (EscapeStep × List Char)
  | [] => none
  | e :: rest2 =>
    if e = '\\' then some (.chr '\\', rest2)
    else if e = 'n' then some (.chr '\n', rest2)
    else if e = 'r' then some (.chr '\r', rest2)
    else if e = 't' then some (.chr '\t', rest2)
    else if e = 'v' then some (.chr (Char.ofNat 11), rest2)
    else if e = 'f' then some (.chr (Char.ofNat 12), rest2)
    else if e = 'a' then some (.chr (Char.ofNat 7), rest2)
    else if e = 'b' then some (.chr (Char.ofNat 8), rest2)
    else if e = 'g' then
      match rest2 with
      | '<' :: rest3 =>
        match splitFirst ['>'] rest3 with
        | none => none
        | some (name, after) =>
          if name ≠ [] ∧ name.all (fun d => d.isDigit) then
            if name.all (fun d => d = '0') then some (.group0, after)
            else none
          else none
      | _ => none
    else if e = '0' then
      match rest2 with
      | d1 :: rest3 =>
        if isOct d1 then
          match rest3 with
          | d2 :: rest4 =>
            if isOct d2 then
              some (.chr (Char.ofNat ((octVal d1 * 8 + octVal d2) % 256)), rest4)
            else some (.chr (Char.ofNat (octVal d1)), rest3)
          | [] => some (.chr (Char.ofNat (octVal d1)), rest3)
        else some (.chr (Char.ofNat 0), rest2)
      | [] => some (.chr (Char.ofNat 0), rest2)
    else if e.isDigit then
      match rest2 with
      | d2 :: rest3 =>
        if d2.isDigit then
          match rest3 with
          | d3 :: rest4 =>
            if isOct e && isOct d2 && isOct d3 then
              if octVal e * 64 + octVal d2 * 8 + octVal d3 > 255 then none
              else some (.chr (Char.ofNat
                (octVal e * 64 + octVal d2 * 8 + octVal d3)), rest4)
            else none
          | [] => none
        else none
      | [] => none
    else if e.isAlpha then none
    else some (.lit2 e, rest2)

/-- Fuel-indexed worker for `parseTemplate`; the fuel only bounds recursion
depth (every step consumes at least one character). -/
def parseTemplateF : Nat → List Char → Option (List TemplatePiece)
  | _, [] => some []
  | 0, _ :: _ => none
  | fuel + 1, c :: rest =>
    if c = '\\' then
      match parseEscape rest with
      | none => none
      | some (.chr ch, rem) => (parseTemplateF fuel rem).map (consLit ch)
      | some (.lit2 ch, rem) =>
        (parseTemplateF fuel rem).map (fun ps => consLit '\\' (consLit ch ps))
      | some (.group0, rem) =>
        (parseTemplateF fuel rem).map (fun ps => TemplatePiece.group0 :: ps)
    else (parseTemplateF fuel rest).map (consLit c)

/-- `re._parser.parse_template` for the marker pattern (which has no capture
groups): a list of literal pieces and whole-match references, or `none` for
the template errors `re.sub` raises (bad ASCII-letter escape, trailing
backslash, malformed `\g<…>`, or a reference to a group other than 0). -/
def parseTemplate (s : List Char) : Option (List TemplatePiece) :=
  parseTemplateF s.length s

/-- Substitute the matched text for each whole-match reference. -/
def expand (tmpl : List TemplatePiece) (g0 : List Char) : List Char :=
  tmpl.flatMap (fun p => match p with | .lit s => s | .group0 => g0)

/-- Fuel-indexed worker for `subAll` (the fuel only bounds recursion depth). -/
def subAllF (tmpl : List TemplatePiece) : Nat → List Char → List Char
  | 0, t => t
  | fuel + 1, t =>
    match splitFirst START t with
    | none => t
    | some (a, b) =>
      match splitFirst END b with
      | none => t
      | some (m, c) =>
        a ++ expand tmpl (START ++ m ++ END) ++ subAllF tmpl fuel c

/-- `re.sub(pattern, repl, text, flags=re.DOTALL)` for the marker pattern and
an already-parsed template: replaces every non-overlapping lazy match with the
template expanded at that match. -/
def subAll (tmpl : List TemplatePiece) (t : List Char) : List Char :=
  subAllF tmpl t.length t

/-- Characters stripped by Python's `str.rstrip()` (`str.isspace`). -/
def isPySpace (c : Char) : Bool :=
  c = ' ' || c = '\t' || c = '\n' || c = '\r' ||
  c.toNat = 11 || c.toNat = 12 || (28 ≤ c.toNat && c.toNat ≤ 31) ||
  c.toNat = 0x85 || c.toNat = 0xA0 || c.toNat = 0x1680 ||
  (0x2000 ≤ c.toNat && c.toNat ≤ 0x200A) ||
  c.toNat = 0x2028 || c.toNat = 0x2029 || c.toNat = 0x202F ||
  c.toNat = 0x205F || c.toNat = 0x3000

/-- Python `text.rstrip()`. -/
def rstrip (t : List Char) : List Char :=
  (t.reverse.dropWhile isPySpace).reverse

/-- `update_readme`: if `re.search` finds a marker region, `re.sub` parses the
replacement as a template and substitutes all matches (`none` models the
`re.error` the script raises on a bad template); otherwise the replacement is
appended literally as `text.rstrip() + "\n\n" + replacement + "\n"` with no
template processing. -/
def update_readme (text body : List Char) : Option (List Char) :=
  match splitFirst START text with
  | some (_, b) =>
    match splitFirst END b with
    | some _ =>
      match parseTemplate (replacement body) with
      | some tmpl => some (subAll tmpl text)
      | none => none
    | none => some (rstrip text ++ '\n' :: '\n' :: (replacement body ++ ['\n']))
  | none => some (rstrip text ++ '\n' :: '\n' :: (replacement body ++ ['\n']))

/-! ### Lemmas about `splitFirst` -/

theorem splitFirst_eq {n : List Char} :
    ∀ {s a b : List Char}, splitFirst n s = some (a, b) → s = a ++ n ++ b := by
  intro s
  induction s with
  | nil =>
    intro a b h
    simp only [splitFirst] at h
    split at h
    · rename_i hp
      have hn : n = [] := List.prefix_nil.mp (List.isPrefixOf_iff_prefix.mp hp)
      cases h
      simp [hn]
    · exact absurd h (by simp)
  | cons c rest ih =>
    intro a b h
    simp only [splitFirst] at h
    split at h
    · rename_i hp
      have hpre : n <+: c :: rest := List.isPrefixOf_iff_prefix.mp hp
      cases h
      have ht := List.prefix_iff_eq_take.mp hpre
      conv_lhs => rw [← List.take_append_drop n.length (c :: rest), ← ht]
      simp
    · rw [Option.map_eq_some'] at h
      obtain ⟨⟨pa, pb⟩, h1, h2⟩ := h
      cases h2
      have := ih h1
      simp [this]

theorem splitFirst_nil {n : List Char} (hn : n ≠ []) : splitFirst n [] = none := by
  simp only [splitFirst]
  rw [if_neg]
  intro hc
  exact hn (List.prefix_nil.mp (List.isPrefixOf_iff_prefix.mp hc))

theorem splitFirst_self {n x : List Char} (hn : n ≠ []) :
    splitFirst n (n ++ x) = some ([], x) := by
  cases n with
  | nil => exact absurd rfl hn
  | cons c m =>
    show splitFirst (c :: m) (c :: (m ++ x)) = some ([], x)
    simp only [splitFirst]
    rw [if_pos]
    · have : ((c :: m) ++ x).drop (c :: m).length = x := List.drop_left (c :: m) x
      simp only [List.cons_append] at this
      rw [this]
    · exact List.isPrefixOf_iff_prefix.mpr (List.prefix_append (c :: m) x)

/-- No occurrence of `n` starts strictly inside `a` when `a` is followed by `s`. -/
def noStart (n a s : List Char) : Prop :=
  ∀ i, i < a.length → ¬ n <+: (a.drop i ++ s)

theorem splitFirst_append {n s : List Char} :
    ∀ {a : List Char}, noStart n a s →
      splitFirst n (a ++ s) = (splitFirst n s).map (fun p => (a ++ p.1, p.2)) := by
  intro a
  induction a with
  | nil =>
    intro _
    simp only [List.nil_append]
    cases h : splitFirst n s with
    | none => rfl
    | some p => cases p; simp
  | cons c a' ih =>
    intro h
    have h0 : ¬ n <+: (c :: a' ++ s) := by simpa using h 0 (by simp)
    show splitFirst n (c :: (a' ++ s)) = _
    simp only [splitFirst]
    rw [if_neg]
    · rw [ih]
      · cases splitFirst n s with
        | none => rfl
        | some p => cases p; simp
      · intro i hi
        simpa using h (i + 1) (by simpa using Nat.succ_lt_succ hi)
    · intro hc
      exact h0 (by simpa using List.isPrefixOf_iff_prefix.mp hc)

theorem noStart_of_splitFirst {n : List Char} :
    ∀ {s a b : List Char}, splitFirst n s = some (a, b) → noStart n a (n ++ b) := by
  intro s
  induction s with
  | nil =>
    intro a b h
    simp only [splitFirst] at h
    split at h
    · cases h; intro i hi; simp at hi
    · simp at h
  | cons c rest ih =>
    intro a b h
    simp only [splitFirst] at h
    split at h
    · cases h; intro i hi; simp at hi
    · rename_i hp
      rw [Option.map_eq_some'] at h
      obtain ⟨⟨pa, pb⟩, h1, h2⟩ := h
      cases h2
      intro i hi
      cases i with
      | zero =>
        intro hpre
        apply hp
        apply List.isPrefixOf_iff_prefix.mpr
        have heq := splitFirst_eq h1
        simpa [heq, List.append_assoc] using hpre
      | succ j =>
        have hj : j < pa.length := by simpa using hi
        simpa using ih h1 j hj

theorem splitFirst_none {n : List Char} (hn : n ≠ []) :
    ∀ {s : List Char}, splitFirst n s = none → ∀ i, ¬ n <+: s.drop i := by
  intro s
  induction s with
  | nil =>
    intro _ i hp
    rw [List.drop_nil] at hp
    exact hn (List.prefix_nil.mp hp)
  | cons c rest ih =>
    intro h i
    simp only [splitFirst] at h
    split at h
    · exact absurd h (by simp)
    · rename_i hp
      have hrest : splitFirst n rest = none := by
        cases hh : splitFirst n rest with
        | none => rfl
        | some p => rw [hh] at h; simp at h
      cases i with
      | zero =>
        intro hpre
        exact hp (List.isPrefixOf_iff_prefix.mpr (by simpa using hpre))
      | succ j => simpa using ih hrest j

theorem prefix_of_append_of_le {n u y : List Char} (h : n <+: u ++ y)
    (hl : n.length ≤ u.length) : n <+: u := by
  rw [List.prefix_iff_eq_take] at h ⊢
  calc n = (u ++ y).take n.length := h
    _ = u.take n.length := by
        rw [List.take_append_eq_append_take, Nat.sub_eq_zero_of_le hl,
          List.take_zero, List.append_nil]

theorem noStart_tail_change {n a m z : List Char} (h : noStart n a (m ++ z))
    (hl : n.length ≤ m.length) (y : List Char) : noStart n a (m ++ y) := by
  intro i hi hpre
  apply h i hi
  have h1 : n <+: (a.drop i ++ m) := by
    apply prefix_of_append_of_le (y := y)
    · simpa [List.append_assoc] using hpre
    · simp only [List.length_append]
      omega
  calc n <+: a.drop i ++ m := h1
    _ <+: (a.drop i ++ m) ++ z := List.prefix_append _ _
    _ = a.drop i ++ (m ++ z) := List.append_assoc _ _ _

theorem mem_of_prefix_cons {n u v : List Char} {c : Char} (h : n <+: u ++ c :: v)
    (hl : u.length < n.length) : c ∈ n := by
  have ht := List.prefix_iff_eq_take.mp h
  rw [ht, List.take_append_eq_append_take]
  have h1 : u.take n.length = u := List.take_of_length_le (le_of_lt hl)
  rw [h1]
  apply List.mem_append_right
  have h2 : 0 < n.length - u.length := by omega
  cases hk : n.length - u.length with
  | zero => omega
  | succ j => simp

/-! ### Unfolding `subAll` -/

theorem START_length_pos : 0 < START.length := by decide

theorem splitFirst_length_lt {s a b m c : List Char}
    (h1 : splitFirst START s = some (a, b)) (h2 : splitFirst END b = some (m, c)) :
    c.length < s.length := by
  have e1 := splitFirst_eq h1
  have e2 := splitFirst_eq h2
  have hs : s.length = a.length + START.length + (m.length + END.length + c.length) := by
    rw [e1, e2]; simp [List.length_append]; omega
  have hS := START_length_pos
  omega

theorem subAllF_mono (tmpl : List TemplatePiece) :
    ∀ f1 : Nat, ∀ {t : List Char} {f2 : Nat}, t.length ≤ f1 → t.length ≤ f2 →
      subAllF tmpl f1 t = subAllF tmpl f2 t := by
  intro f1
  induction f1 with
  | zero =>
    intro t f2 hl1 _
    have ht : t = [] := List.eq_nil_of_length_eq_zero (Nat.le_zero.mp hl1)
    subst ht
    cases f2 with
    | zero => rfl
    | succ g => simp [subAllF, splitFirst_nil (by decide : START ≠ ([] : List Char))]
  | succ f ih =>
    intro t f2 hl1 hl2
    cases f2 with
    | zero =>
      have ht : t = [] := List.eq_nil_of_length_eq_zero (Nat.le_zero.mp hl2)
      subst ht
      simp [subAllF, splitFirst_nil (by decide : START ≠ ([] : List Char))]
    | succ g =>
      simp only [subAllF]
      cases h1 : splitFirst START t with
      | none => rfl
      | some p1 =>
        obtain ⟨a, b⟩ := p1
        cases h2 : splitFirst END b with
        | none => simp only [h2]
        | some p2 =>
          obtain ⟨m, c⟩ := p2
          simp only [h2]
          have hc := splitFirst_length_lt h1 h2
          congr 1
          exact ih (by omega) (by omega)

theorem subAll_unfold (tmpl : List TemplatePiece) (t : List Char) :
    subAll tmpl t =
      match splitFirst START t with
      | none => t
      | some (a, b) =>
        match splitFirst END b with
        | none => t
        | some (m, c) =>
          a ++ expand tmpl (START ++ m ++ END) ++ subAll tmpl c := by
  show subAllF tmpl t.length t = _
  cases t with
  | nil => simp [subAllF, splitFirst_nil (by decide : START ≠ ([] : List Char))]
  | cons c0 t0 =>
    show subAllF tmpl (t0.length + 1) (c0 :: t0) = _
    simp only [subAllF]
    cases h1 : splitFirst START (c0 :: t0) with
    | none => rfl
    | some p1 =>
      obtain ⟨a, b⟩ := p1
      cases h2 : splitFirst END b with
      | none => simp only [h2]
      | some p2 =>
        obtain ⟨m, c⟩ := p2
        simp only [h2]
        have hc := splitFirst_length_lt h1 h2
        simp only [List.length_cons] at hc
        congr 1
        show subAllF tmpl t0.length c = subAllF tmpl c.length c
        exact subAllF_mono tmpl t0.length (by omega) (le_refl _)

theorem subAll_of_none {tmpl : List TemplatePiece} {t : List Char}
    (h : splitFirst START t = none) : subAll tmpl t = t := by
  rw [subAll_unfold, h]

theorem subAll_of_noEnd {tmpl : List TemplatePiece} {t a b : List Char}
    (h1 : splitFirst START t = some (a, b))
    (h2 : splitFirst END b = none) : subAll tmpl t = t := by
  rw [subAll_unfold]
  simp only [h1, h2]

theorem subAll_of_found {tmpl : List TemplatePiece} {t a b m c : List Char}
    (h1 : splitFirst START t = some (a, b)) (h2 : splitFirst END b = some (m, c)) :
    subAll tmpl t = a ++ expand tmpl (START ++ m ++ END) ++ subAll tmpl c := by
  rw [subAll_unfold]
  simp only [h1, h2]

theorem expand_lit (r g0 : List Char) : expand [TemplatePiece.lit r] g0 = r := by
  simp [expand]

theorem subAll_lit_of_found {r : List Char} {t a b m c : List Char}
    (h1 : splitFirst START t = some (a, b)) (h2 : splitFirst END b = some (m, c)) :
    subAll [TemplatePiece.lit r] t = a ++ r ++ subAll [TemplatePiece.lit r] c := by
  rw [subAll_of_found h1 h2, expand_lit]

/-! ### The replacement block and idempotence of `subAll` -/

/-- The text `"\n" + body + "\n"` standing between the two markers inside
`replacement body`. -/
def midPart (body : List Char) : List Char := '\n' :: (body ++ ['\n'])

/-- The body is benign for re-substitution: no end-marker occurrence starts
inside `"\n" + body + "\n"` when the end marker follows it. -/
def bodyOK (body : List Char) : Prop := noStart END (midPart body) END

instance (n a s : List Char) : Decidable (noStart n a s) := by
  unfold noStart
  infer_instance

instance (body : List Char) : Decidable (bodyOK body) := by
  unfold bodyOK
  infer_instance

theorem replacement_shape (body X : List Char) :
    replacement body ++ X = START ++ (midPart body ++ (END ++ X)) := by
  simp [replacement, midPart, List.append_assoc]

theorem noStart_mid {body : List Char} (hb : bodyOK body) (X : List Char) :
    noStart END (midPart body) (END ++ X) := by
  have h0 : noStart END (midPart body) (END ++ ([] : List Char)) := by
    simpa using hb
  exact noStart_tail_change h0 (le_refl _) X

theorem splitFirst_mid_END {body X : List Char} (hb : bodyOK body) :
    splitFirst END (midPart body ++ (END ++ X)) = some (midPart body, X) := by
  rw [splitFirst_append (noStart_mid hb X),
    splitFirst_self (by decide : END ≠ ([] : List Char))]
  simp

theorem splitFirst_repl_START {body a X z : List Char}
    (ha : noStart START a (START ++ z)) :
    splitFirst START (a ++ replacement body ++ X)
      = some (a, midPart body ++ (END ++ X)) := by
  have ha' : noStart START a (START ++ (midPart body ++ (END ++ X))) :=
    noStart_tail_change ha (le_refl _) _
  have hshape : a ++ replacement body ++ X
      = a ++ (START ++ (midPart body ++ (END ++ X))) := by
    rw [List.append_assoc, replacement_shape]
  rw [hshape, splitFirst_append ha',
    splitFirst_self (by decide : START ≠ ([] : List Char))]
  simp

theorem subAll_subAll_le {body : List Char} (hb : bodyOK body) :
    ∀ n, ∀ t : List Char, t.length ≤ n →
      subAll [TemplatePiece.lit (replacement body)]
          (subAll [TemplatePiece.lit (replacement body)] t)
        = subAll [TemplatePiece.lit (replacement body)] t := by
  intro n
  induction n with
  | zero =>
    intro t hl
    have ht : t = [] := List.eq_nil_of_length_eq_zero (Nat.le_zero.mp hl)
    subst ht
    rw [subAll_of_none (splitFirst_nil (by decide)),
      subAll_of_none (splitFirst_nil (by decide))]
  | succ k ih =>
    intro t hl
    cases h1 : splitFirst START t with
    | none => rw [subAll_of_none h1, subAll_of_none h1]
    | some p =>
      obtain ⟨a, b⟩ := p
      cases h2 : splitFirst END b with
      | none => rw [subAll_of_noEnd h1 h2, subAll_of_noEnd h1 h2]
      | some q =>
        obtain ⟨m, c⟩ := q
        rw [subAll_lit_of_found h1 h2]
        have hsS := @splitFirst_repl_START body a
          (subAll [TemplatePiece.lit (replacement body)] c) b
          (noStart_of_splitFirst h1)
        have hsE := splitFirst_mid_END
          (X := subAll [TemplatePiece.lit (replacement body)] c) hb
        rw [subAll_lit_of_found hsS hsE]
        have hc := splitFirst_length_lt h1 h2
        rw [ih c (by omega)]

theorem subAll_subAll {body : List Char} (hb : bodyOK body) (t : List Char) :
    subAll [TemplatePiece.lit (replacement body)]
        (subAll [TemplatePiece.lit (replacement body)] t)
      = subAll [TemplatePiece.lit (replacement body)] t :=
  subAll_subAll_le hb t.length t (le_refl _)

/-! ### `rstrip` structure and the no-marker append path -/

theorem rstrip_append (t : List Char) : ∃ ws, t = rstrip t ++ ws := by
  refine ⟨(t.reverse.takeWhile isPySpace).reverse, ?_⟩
  rw [rstrip]
  conv_lhs =>
    rw [← List.reverse_reverse t,
      ← List.takeWhile_append_dropWhile (p := isPySpace) (l := t.reverse)]
  rw [List.reverse_append]

theorem noStart_rstrip_pad {t : List Char} (h : splitFirst START t = none)
    (s : List Char) : noStart START (rstrip t ++ ['\n', '\n']) s := by
  intro i hi hpre
  by_cases hile : i < (rstrip t).length
  · have hdrop : (rstrip t ++ ['\n', '\n']).drop i
        = (rstrip t).drop i ++ ['\n', '\n'] := by
      rw [List.drop_append_eq_append_drop, Nat.sub_eq_zero_of_le (le_of_lt hile),
        List.drop_zero]
    rw [hdrop] at hpre
    by_cases hlen : START.length ≤ ((rstrip t).drop i).length
    · have h1 : START <+: (rstrip t).drop i := by
        apply prefix_of_append_of_le (y := ['\n', '\n'] ++ s)
        · simpa [List.append_assoc] using hpre
        · exact hlen
      obtain ⟨ws, hws⟩ := rstrip_append t
      have h2 : START <+: t.drop i := by
        rw [hws, List.drop_append_eq_append_drop,
          Nat.sub_eq_zero_of_le (le_of_lt hile), List.drop_zero]
        calc START <+: (rstrip t).drop i := h1
          _ <+: (rstrip t).drop i ++ ws := List.prefix_append _ _
      exact splitFirst_none (by decide) h i h2
    · have hmem : '\n' ∈ START := by
        apply mem_of_prefix_cons (u := (rstrip t).drop i) (v := '\n' :: s)
        · simpa [List.append_assoc] using hpre
        · omega
      exact absurd hmem (by decide)
  · have hlen2 : i < (rstrip t).length + 2 := by
      simpa [List.length_append] using hi
    have hdrop : (rstrip t ++ ['\n', '\n']).drop i
        = ['\n', '\n'].drop (i - (rstrip t).length) := by
      rw [List.drop_append_eq_append_drop, List.drop_eq_nil_of_le (by omega),
        List.nil_append]
    have hmem : '\n' ∈ START := by
      rcases (by omega : i - (rstrip t).length = 0 ∨ i - (rstrip t).length = 1) with h0 | h0
      · rw [hdrop, h0] at hpre
        exact mem_of_prefix_cons (u := ([] : List Char)) (by simpa using hpre) (by decide)
      · rw [hdrop, h0] at hpre
        exact mem_of_prefix_cons (u := ([] : List Char)) (by simpa using hpre) (by decide)
    exact absurd hmem (by decide)

/-- Every start marker occurring in the document is followed by an end marker
(vacuously true when no start marker occurs). -/
def markersWellFormed (t : List Char) : Bool :=
  match splitFirst START t with
  | none => true
  | some (_, b) => (splitFirst END b).isSome

/-! ### Literal templates for backslash-free bodies -/

theorem parseTemplateF_no_backslash :
    ∀ (fuel : Nat) (s : List Char), s.length ≤ fuel → '\\' ∉ s → s ≠ [] →
      parseTemplateF fuel s = some [TemplatePiece.lit s] := by
  intro fuel
  induction fuel with
  | zero =>
    intro s h _ hne
    exact absurd (List.eq_nil_of_length_eq_zero (Nat.le_zero.mp h)) hne
  | succ f ih =>
    intro s h hb hne
    cases s with
    | nil => exact absurd rfl hne
    | cons c rest =>
      have hc : ¬ c = '\\' := by
        intro e
        exact hb (e ▸ List.mem_cons_self c rest)
      show parseTemplateF (f + 1) (c :: rest) = _
      unfold parseTemplateF
      rw [if_neg hc]
      cases rest with
      | nil => cases f <;> rfl
      | cons d rest2 =>
        rw [ih (d :: rest2) (by simpa using Nat.le_of_succ_le_succ h)
          (fun hm => hb (List.mem_cons_of_mem _ hm)) (by simp)]
        rfl

theorem parseTemplate_no_backslash {s : List Char} (hb : '\\' ∉ s) (hne : s ≠ []) :
    parseTemplate s = some [TemplatePiece.lit s] :=
  parseTemplateF_no_backslash s.length s (le_refl _) hb hne

theorem backslash_not_mem_replacement {body : List Char} (hfree : '\\' ∉ body) :
    '\\' ∉ replacement body := by
  intro hmem
  rw [replacement] at hmem
  rcases List.mem_append.mp hmem with h | h
  · exact absurd h (by decide)
  · rcases List.mem_cons.mp h with h | h
    · exact absurd h (by decide)
    · rcases List.mem_append.mp h with h | h
      · exact hfree h
      · rcases List.mem_cons.mp h with h | h
        · exact absurd h (by decide)
        · exact absurd h (by decide)

theorem replacement_ne_nil (body : List Char) : replacement body ≠ [] := by
  rw [replacement]
  intro h
  exact absurd (List.append_eq_nil.mp h).1 (by decide)

/-- A backslash-free body parses to the single literal piece, so `re.sub`
inserts it verbatim. -/
theorem parseTemplate_replacement_of_free {body : List Char} (hfree : '\\' ∉ body) :
    parseTemplate (replacement body) = some [TemplatePiece.lit (replacement body)] :=
  parseTemplate_no_backslash (backslash_not_mem_replacement hfree)
    (replacement_ne_nil body)

/-! ### Claims C1, C2, C3: the document patcher -/

/-- C1 (amended): in the marker case the patch preserves the text before the
first start marker and after the first marker region byte-for-byte, the region
being replaced by the replacement template expanded at the matched span —
which is the markers wrapping the literal body whenever the body contains no
backslash; when the document has no start marker the markers plus body are
appended at the end, but only after trailing whitespace of the document has
been stripped — the original claim's byte-identity in the no-marker case fails
on trailing whitespace (see the counterexample). -/
theorem update_readme_frame {t body a b m c : List Char} :
    (splitFirst START t = some (a, b) → splitFirst END b = some (m, c) →
      splitFirst START c = none →
      (∀ tmpl, parseTemplate (replacement body) = some tmpl →
        update_readme t body = some (a ++ expand tmpl (START ++ m ++ END) ++ c))
      ∧ ('\\' ∉ body →
        update_readme t body = some (a ++ replacement body ++ c)))
    ∧ (splitFirst START t = none →
      update_readme t body
        = some (rstrip t ++ '\n' :: '\n' :: (replacement body ++ ['\n']))) := by
  constructor
  · intro h1 h2 h3
    constructor
    · intro tmpl htm
      have hu : update_readme t body = some (subAll tmpl t) := by
        unfold update_readme
        simp only [h1, h2, htm]
      rw [hu, subAll_of_found h1 h2, subAll_of_none h3]
    · intro hfree
      have htm := parseTemplate_replacement_of_free hfree
      have hu : update_readme t body
          = some (subAll [TemplatePiece.lit (replacement body)] t) := by
        unfold update_readme
        simp only [h1, h2, htm]
      rw [hu, subAll_lit_of_found h1 h2, subAll_of_none h3]
  · intro h1
    unfold update_readme
    simp only [h1]

/-- C2 (amended): when the document contains two marker regions, the patch
replaces every region (all non-overlapping matches), not just the first —
`re.sub` without a count replaces all matches — each region receiving the
replacement template expanded at its own matched span, which is the same
literal block for backslash-free bodies. -/
theorem update_readme_replaces_all {t body a b m c a2 b2 m2 c2 : List Char}
    (h1 : splitFirst START t = some (a, b)) (h2 : splitFirst END b = some (m, c))
    (h3 : splitFirst START c = some (a2, b2)) (h4 : splitFirst END b2 = some (m2, c2))
    (h5 : splitFirst START c2 = none) :
    (∀ tmpl, parseTemplate (replacement body) = some tmpl →
      update_readme t body
        = some (a ++ expand tmpl (START ++ m ++ END)
            ++ (a2 ++ expand tmpl (START ++ m2 ++ END) ++ c2)))
    ∧ ('\\' ∉ body →
      update_readme t body
        = some (a ++ replacement body ++ (a2 ++ replacement body ++ c2))) := by
  constructor
  · intro tmpl htm
    have hu : update_readme t body = some (subAll tmpl t) := by
      unfold update_readme
      simp only [h1, h2, htm]
    rw [hu, subAll_of_found h1 h2, subAll_of_found h3 h4, subAll_of_none h5]
  · intro hfree
    have htm := parseTemplate_replacement_of_free hfree
    have hu : update_readme t body
        = some (subAll [TemplatePiece.lit (replacement body)] t) := by
      unfold update_readme
      simp only [h1, h2, htm]
    rw [hu, subAll_lit_of_found h1 h2, subAll_lit_of_found h3 h4,
      subAll_of_none h5]

/-- C3 (amended): applying the README patch twice with the same body yields a
document identical to applying it once, provided the body contains no
backslash (so `re.sub`'s template processing inserts it literally), no
end-marker occurrence starts inside `"\n" + body + "\n"`, and every start
marker in the document is followed by an end marker; without these provisos
idempotence fails (see the counterexample). -/
theorem update_readme_idem {t body : List Char} (hb : bodyOK body)
    (hw : markersWellFormed t = true) (hfree : '\\' ∉ body) :
    (update_readme t body).bind (fun u => update_readme u body)
      = update_readme t body := by
  have htm := parseTemplate_replacement_of_free hfree
  cases h1 : splitFirst START t with
  | some p =>
    obtain ⟨a, b⟩ := p
    have h2s : (splitFirst END b).isSome = true := by
      unfold markersWellFormed at hw
      rw [h1] at hw
      exact hw
    cases h2 : splitFirst END b with
    | none => rw [h2] at h2s; simp at h2s
    | some q =>
      obtain ⟨m, c⟩ := q
      have hu : update_readme t body
          = some (subAll [TemplatePiece.lit (replacement body)] t) := by
        unfold update_readme
        simp only [h1, h2, htm]
      rw [hu]
      show update_readme (subAll [TemplatePiece.lit (replacement body)] t) body
        = some (subAll [TemplatePiece.lit (replacement body)] t)
      rw [subAll_lit_of_found h1 h2]
      have hsS := @splitFirst_repl_START body a
        (subAll [TemplatePiece.lit (replacement body)] c) b
        (noStart_of_splitFirst h1)
      have hsE := splitFirst_mid_END
        (X := subAll [TemplatePiece.lit (replacement body)] c) hb
      have hu2 : update_readme
          (a ++ replacement body
            ++ subAll [TemplatePiece.lit (replacement body)] c) body
          = some (subAll [TemplatePiece.lit (replacement body)]
              (a ++ replacement body
                ++ subAll [TemplatePiece.lit (replacement body)] c)) := by
        unfold update_readme
        simp only [hsS, hsE, htm]
      rw [hu2, ← subAll_lit_of_found h1 h2]
      exact congrArg some (subAll_subAll hb t)
  | none =>
    have hu : update_readme t body
        = some (rstrip t ++ '\n' :: '\n' :: (replacement body ++ ['\n'])) := by
      unfold update_readme
      simp only [h1]
    rw [hu]
    show update_readme (rstrip t ++ '\n' :: '\n' :: (replacement body ++ ['\n'])) body
      = some (rstrip t ++ '\n' :: '\n' :: (replacement body ++ ['\n']))
    have hshape : rstrip t ++ '\n' :: '\n' :: (replacement body ++ ['\n'])
        = (rstrip t ++ ['\n', '\n']) ++ replacement body ++ ['\n'] := by
      simp [List.append_assoc]
    have hsS : splitFirst START ((rstrip t ++ ['\n', '\n']) ++ replacement body ++ ['\n'])
        = some (rstrip t ++ ['\n', '\n'], midPart body ++ (END ++ ['\n'])) :=
      splitFirst_repl_START (z := midPart body ++ (END ++ ['\n']))
        (noStart_rstrip_pad h1 _)
    have hsE := splitFirst_mid_END (X := ['\n']) hb
    have hu2 : update_readme ((rstrip t ++ ['\n', '\n']) ++ replacement body ++ ['\n']) body
        = some (subAll [TemplatePiece.lit (replacement body)]
            ((rstrip t ++ ['\n', '\n']) ++ replacement body ++ ['\n'])) := by
      unfold update_readme
      simp only [hsS, hsE, htm]
    rw [hshape, hu2, subAll_lit_of_found hsS hsE,
      subAll_of_none (by decide : splitFirst START ['\n'] = none)]

/-- C1 counterexample: a document `"x \n"` (no markers) is not preserved as a
prefix of the patched result — `rstrip` removes its trailing whitespace, so
content outside the (absent) marked region is altered. -/
theorem update_readme_frame_cex :
    update_readme "x \n".toList "B".toList
      = some "x\n\n<!-- LANGUAGES:START -->\nB\n<!-- LANGUAGES:END -->\n".toList
    ∧ ¬ ("x \n".toList <+:
        "x\n\n<!-- LANGUAGES:START -->\nB\n<!-- LANGUAGES:END -->\n".toList) := by
  constructor
  · decide
  · decide

/-- Witness for C1 at concrete inputs. -/
theorem update_readme_frame_witness :
    (update_readme "pre<!-- LANGUAGES:START -->old<!-- LANGUAGES:END -->post".toList "B".toList
      = some ("pre".toList ++ replacement "B".toList ++ "post".toList))
    ∧ (update_readme "doc \n".toList "B".toList
      = some (rstrip "doc \n".toList ++ '\n' :: '\n' :: (replacement "B".toList ++ ['\n']))) :=
  ⟨(update_readme_frame.1
      (by decide : splitFirst START
          "pre<!-- LANGUAGES:START -->old<!-- LANGUAGES:END -->post".toList
        = some ("pre".toList, "old<!-- LANGUAGES:END -->post".toList))
      (by decide : splitFirst END "old<!-- LANGUAGES:END -->post".toList
        = some ("old".toList, "post".toList))
      (by decide : splitFirst START "post".toList = none)).2
      (by decide : '\\' ∉ "B".toList),
   (@update_readme_frame "doc \n".toList "B".toList [] [] [] []).2
     (by decide : splitFirst START "doc \n".toList = none)⟩

/-- C2 counterexample: with two marker regions, the text from just after the
first region to the end of the document (which contains the second region) is
not left untouched — it is not a suffix of the patched result, because the
second region is replaced as well. -/
theorem update_readme_replaces_all_cex :
    update_readme
        "<!-- LANGUAGES:START -->a<!-- LANGUAGES:END -->X<!-- LANGUAGES:START -->b<!-- LANGUAGES:END -->".toList
        "T".toList
      = some "<!-- LANGUAGES:START -->\nT\n<!-- LANGUAGES:END -->X<!-- LANGUAGES:START -->\nT\n<!-- LANGUAGES:END -->".toList
    ∧ ¬ ("X<!-- LANGUAGES:START -->b<!-- LANGUAGES:END -->".toList <:+
        "<!-- LANGUAGES:START -->\nT\n<!-- LANGUAGES:END -->X<!-- LANGUAGES:START -->\nT\n<!-- LANGUAGES:END -->".toList) := by
  constructor
  · decide
  · decide

/-- Witness for C2 at a concrete two-region document. -/
theorem update_readme_replaces_all_witness :
    update_readme
        "<!-- LANGUAGES:START -->a<!-- LANGUAGES:END -->X<!-- LANGUAGES:START -->b<!-- LANGUAGES:END -->".toList
        "T".toList
      = some ([] ++ replacement "T".toList
          ++ ("X".toList ++ replacement "T".toList ++ [])) :=
  (update_readme_replaces_all
    (by decide : splitFirst START
        "<!-- LANGUAGES:START -->a<!-- LANGUAGES:END -->X<!-- LANGUAGES:START -->b<!-- LANGUAGES:END -->".toList
      = some ([], "a<!-- LANGUAGES:END -->X<!-- LANGUAGES:START -->b<!-- LANGUAGES:END -->".toList))
    (by decide : splitFirst END
        "a<!-- LANGUAGES:END -->X<!-- LANGUAGES:START -->b<!-- LANGUAGES:END -->".toList
      = some ("a".toList, "X<!-- LANGUAGES:START -->b<!-- LANGUAGES:END -->".toList))
    (by decide : splitFirst START "X<!-- LANGUAGES:START -->b<!-- LANGUAGES:END -->".toList
      = some ("X".toList, "b<!-- LANGUAGES:END -->".toList))
    (by decide : splitFirst END "b<!-- LANGUAGES:END -->".toList = some ("b".toList, []))
    (by decide : splitFirst START ([] : List Char) = none)).2
    (by decide : '\\' ∉ "T".toList)

/-- C3 counterexample: idempotence fails as universally stated — (i) a body
containing the end marker truncates the second pass's lazy match, (ii) a
document containing a start marker with no end marker after it captures the
appended block, and (iii) a body containing the template reference `\g<0>` is
inserted literally by the no-marker append but expanded by the second pass's
`re.sub`; in each case applying the patch twice differs from applying it
once. -/
theorem update_readme_idem_cex :
    ((update_readme [] "<!-- LANGUAGES:END -->".toList).bind
        (fun u => update_readme u "<!-- LANGUAGES:END -->".toList)
      ≠ update_readme [] "<!-- LANGUAGES:END -->".toList)
    ∧ ((update_readme "<!-- LANGUAGES:START -->".toList "B".toList).bind
        (fun u => update_readme u "B".toList)
      ≠ update_readme "<!-- LANGUAGES:START -->".toList "B".toList)
    ∧ ((update_readme [] "\\g<0>".toList).bind
        (fun u => update_readme u "\\g<0>".toList)
      ≠ update_readme [] "\\g<0>".toList) := by
  refine ⟨by decide, by decide, by decide⟩

/-- Witness for C3 at a concrete document and body. -/
theorem update_readme_idem_witness :
    (update_readme "hello\n".toList "Table".toList).bind
        (fun u => update_readme u "Table".toList)
      = update_readme "hello\n".toList "Table".toList :=
  update_readme_idem (by decide) (by decide) (by decide)

/-! ### Claim C4: the API client's error handling (`graphql`) -/

/-- A decoded GraphQL JSON response: `errors = some l` exactly when the
`"errors"` key is present (with payload `l`); `data = some d` exactly when the
`"data"` key is present. -/
structure GQLResponse (ε δ : Type) where
  errors : Option (List ε)
  data : Option δ
deriving DecidableEq

/-- Outcome of the tail of `graphql` after JSON decoding: the
`RuntimeError(payload["errors"])` raise, the returned `payload["data"]`, or
the `KeyError` from `payload["data"]` when that key is absent. -/
inductive GQLOutcome (ε δ : Type) where
  | protocolError (payload : List ε)
  | ok (d : δ)
  | keyError
deriving DecidableEq

/-- `if "errors" in payload: raise RuntimeError(payload["errors"])` followed by
`return payload["data"]`. -/
def graphqlHandle {ε δ : Type} (p : GQLResponse ε δ) : GQLOutcome ε δ :=
  match p.errors with
  | some errs => .protocolError errs
  | none =>
    match p.data with
    | some d => .ok d
    | none => .keyError

/-- C4 (amended): the call raises a protocol error exactly when the decoded
response contains the `errors` key — even when the error list is empty — and
the raised error surfaces the error payload itself; when the key is absent and
the `data` key is present, the call returns the `data` field. -/
theorem graphql_protocol_error {ε δ : Type} (p : GQLResponse ε δ) :
    (∀ e, graphqlHandle p = .protocolError e ↔ p.errors = some e)
    ∧ (p.errors = none → ∀ d, p.data = some d → graphqlHandle p = .ok d) := by
  obtain ⟨pe, pd⟩ := p
  cases pe <;> cases pd <;> simp [graphqlHandle]

/-- C4 counterexample: a decoded response whose `errors` key holds an empty
list does not carry a non-empty error list, yet `graphql` raises (the key-
presence test `"errors" in payload` fires) instead of returning the `data`
field. -/
theorem graphql_protocol_error_cex :
    graphqlHandle (GQLResponse.mk (some []) (some 0) : GQLResponse Nat Nat)
      = GQLOutcome.protocolError []
    ∧ graphqlHandle (GQLResponse.mk (some []) (some 0) : GQLResponse Nat Nat)
      ≠ GQLOutcome.ok 0 := by
  constructor
  · decide
  · decide

/-- Witness for C4 at concrete responses. -/
theorem graphql_protocol_error_witness :
    (graphqlHandle (GQLResponse.mk (some [207]) (some 3) : GQLResponse Nat Nat)
      = GQLOutcome.protocolError [207]
      ↔ (some [207] : Option (List Nat)) = some [207])
    ∧ graphqlHandle (GQLResponse.mk none (some 3) : GQLResponse Nat Nat)
      = GQLOutcome.ok 3 :=
  ⟨(graphql_protocol_error ⟨some [207], some 3⟩).1 [207],
   (graphql_protocol_error ⟨none, some 3⟩).2 rfl 3 rfl⟩

/-! ### The aggregator (`main`'s totals loop) -/

/-- One language edge `{size, node: {name}}`; `lang` is `edge["node"]["name"]`
(the source's loop variable `lang`) and `size` is `int(edge["size"])`. -/
structure Edge where
  size : Int
  lang : String
deriving DecidableEq

/-- The `languages`/`edges` part of a repository node, distinguishing the
shapes `repo.get("languages", {}).get("edges", []) or []` normalises: the
`languages` key absent, the `edges` key absent, `edges` equal to `null`, or an
actual edge list. -/
inductive LangsField where
  | missing
  | edgesMissing
  | edgesNull
  | edges (es : List Edge)
deriving DecidableEq

/-- A repository node: `name` (absent/null → `none`), `isArchived`
(an absent key behaves as `false`), and the `languages` field. -/
structure Repo where
  name : Option String
  isArchived : Bool
  languages : LangsField
deriving DecidableEq

/-- `repo.get("languages", {}).get("edges", []) or []`. -/
def repoEdges (r : Repo) : List Edge :=
  match r.languages with
  | .missing => []
  | .edgesMissing => []
  | .edgesNull => []
  | .edges es => es

/-- The skip tests in `main`'s loop: `if not name or repo.get("isArchived"):
continue` and `if name in EXCLUDE_REPOS: continue` (a falsy name is a missing,
null or empty one). -/
def includeRepo (exR : List String) (r : Repo) : Bool :=
  match r.name with
  | none => false
  | some n => !(n = "") && !r.isArchived && !(exR.contains n)

/-- `totals[lang] += v` on an insertion-ordered association list — the
behaviour of `defaultdict(int)`: a missing key starts at `0` and new keys are
appended in insertion order. -/
def addTo : List (String × Int) → String → Int → List (String × Int)
  | [], k, v => [(k, v)]
  | (k', v') :: rest, k, v =>
    if k' = k then (k', v' + v) :: rest else (k', v') :: addTo rest k v

/-- The inner edge loop: `for edge in ...: if lang in EXCLUDE_LANGS: continue;
totals[lang] += int(edge["size"])`. -/
def addEdges (exL : List String) (ts : List (String × Int)) (es : List Edge) :
    List (String × Int) :=
  es.foldl (fun ts e => if exL.contains e.lang then ts else addTo ts e.lang e.size) ts

/-- Process one repository node of the outer loop. -/
def addRepo (exR exL : List String) (ts : List (String × Int)) (r : Repo) :
    List (String × Int) :=
  if includeRepo exR r then addEdges exL ts (repoEdges r) else ts

/-- The totals accumulated by `main` over all repository nodes, as the
insertion-ordered mapping `defaultdict(int)` produces. -/
def aggregate (exR exL : List String) (repos : List Repo) : List (String × Int) :=
  repos.foldl (addRepo exR exL) []

/-- Dictionary lookup on the association list (`totals[k]` as a mapping). -/
def lookupTot : List (String × Int) → String → Option Int
  | [], _ => none
  | (k, v) :: rest, key => if k = key then some v else lookupTot rest key

/-! ### Claim C5: positivity of accumulated totals -/

theorem addTo_pos {ts : List (String × Int)} {k : String} {v : Int}
    (h : ∀ p ∈ ts, 0 < p.2) (hv : 0 < v) : ∀ p ∈ addTo ts k v, 0 < p.2 := by
  induction ts with
  | nil =>
    intro p hp
    simp only [addTo, List.mem_singleton] at hp
    subst hp
    exact hv
  | cons hd tl ih =>
    obtain ⟨k', v'⟩ := hd
    intro p hp
    simp only [addTo] at hp
    split at hp
    · rcases List.mem_cons.mp hp with h1 | h1
      · subst h1
        exact add_pos (h (k', v') (List.mem_cons_self _ _)) hv
      · exact h p (List.mem_cons_of_mem _ h1)
    · rcases List.mem_cons.mp hp with h1 | h1
      · subst h1
        exact h (k', v') (List.mem_cons_self _ _)
      · exact ih (fun q hq => h q (List.mem_cons_of_mem _ hq)) p h1

theorem addEdges_pos {exL : List String} :
    ∀ {es : List Edge} {ts : List (String × Int)}, (∀ p ∈ ts, 0 < p.2) →
      (∀ e ∈ es, 0 < e.size) → ∀ p ∈ addEdges exL ts es, 0 < p.2 := by
  intro es
  induction es with
  | nil => intro ts h _ p hp; exact h p hp
  | cons e rest ih =>
    intro ts h he p hp
    rw [addEdges, List.foldl_cons] at hp
    have hstep : ∀ q ∈ (if exL.contains e.lang then ts else addTo ts e.lang e.size), 0 < q.2 := by
      split
      · exact h
      · exact addTo_pos h (he e (List.mem_cons_self _ _))
    exact ih hstep (fun e' he' => he e' (List.mem_cons_of_mem _ he')) p hp

theorem aggregate_fold_pos {exR exL : List String} :
    ∀ {repos : List Repo} {ts : List (String × Int)}, (∀ p ∈ ts, 0 < p.2) →
      (∀ r ∈ repos, ∀ e ∈ repoEdges r, 0 < e.size) →
      ∀ p ∈ repos.foldl (addRepo exR exL) ts, 0 < p.2 := by
  intro repos
  induction repos with
  | nil => intro ts h _ p hp; exact h p hp
  | cons r rest ih =>
    intro ts h hr p hp
    rw [List.foldl_cons] at hp
    have hstep : ∀ q ∈ addRepo exR exL ts r, 0 < q.2 := by
      unfold addRepo
      split
      · exact addEdges_pos h (hr r (List.mem_cons_self _ _))
      · exact h
    exact ih hstep (fun r' hr' => hr r' (List.mem_cons_of_mem _ hr')) p hp

/-- C5 (amended): provided every language edge of every repository carries a
strictly positive byte size, every language key present in the aggregate
totals has a strictly positive accumulated size.  (Without the positivity
proviso a zero-size edge creates its key with total `0` — see the
counterexample.) -/
theorem aggregate_pos (exR exL : List String) (repos : List Repo)
    (hpos : ∀ r ∈ repos, ∀ e ∈ repoEdges r, 0 < e.size) :
    ∀ p ∈ aggregate exR exL repos, 0 < p.2 :=
  aggregate_fold_pos (by intro p hp; simp at hp) hpos

/-- C5 counterexample: a repository reporting a zero-size edge for language
`"X"` puts the key `"X"` into the totals with accumulated size `0`, which is
not strictly positive. -/
theorem aggregate_pos_cex :
    aggregate [] [] [⟨some "r", false, .edges [⟨0, "X"⟩]⟩] = [("X", 0)]
    ∧ ¬ (∀ p ∈ aggregate [] [] [(⟨some "r", false, .edges [⟨0, "X"⟩]⟩ : Repo)], 0 < p.2) := by
  constructor
  · decide
  · decide

/-- Witness for C5 at a concrete repository list and a concrete entry. -/
theorem aggregate_pos_witness :
    ("Py", (10 : Int)) ∈ aggregate [] ["Jupyter Notebook"]
      [(⟨some "r", false, .edges [⟨10, "Py"⟩, ⟨4, "C"⟩]⟩ : Repo)]
    ∧ 0 < (("Py", (10 : Int)) : String × Int).2 :=
  ⟨by decide,
   aggregate_pos [] ["Jupyter Notebook"]
    [⟨some "r", false, .edges [⟨10, "Py"⟩, ⟨4, "C"⟩]⟩] (by decide)
    ("Py", 10) (by decide)⟩

/-! ### Claim C6: permutation invariance of aggregation -/

/-- Merge of optional totals: `none` is key-absent, `some` accumulates. -/
def mergeOpt : Option Int → Option Int → Option Int
  | none, b => b
  | some v, none => some v
  | some v, some w => some (v + w)

theorem mergeOpt_none_right (x : Option Int) : mergeOpt x none = x := by
  cases x <;> rfl

theorem mergeOpt_assoc (x y z : Option Int) :
    mergeOpt (mergeOpt x y) z = mergeOpt x (mergeOpt y z) := by
  cases x <;> cases y <;> cases z <;>
    simp [mergeOpt, Int.add_assoc, Int.add_comm, Int.add_left_comm]

instance : RightCommutative mergeOpt :=
  ⟨fun b x y => by
    cases b <;> cases x <;> cases y <;>
      simp [mergeOpt, Int.add_assoc, Int.add_comm, Int.add_left_comm]⟩

/-- The contribution of one edge list to the total of language `key`. -/
def edgesContrib (exL : List String) (key : String) : List Edge → Option Int
  | [] => none
  | e :: rest =>
    if exL.contains e.lang then edgesContrib exL key rest
    else if e.lang = key then mergeOpt (some e.size) (edgesContrib exL key rest)
    else edgesContrib exL key rest

/-- The contribution of one repository to the total of language `key`. -/
def repoContrib (exR exL : List String) (key : String) (r : Repo) : Option Int :=
  if includeRepo exR r then edgesContrib exL key (repoEdges r) else none

theorem lookupTot_addTo (ts : List (String × Int)) (k : String) (v : Int) (key : String) :
    lookupTot (addTo ts k v) key
      = if k = key then mergeOpt (lookupTot ts key) (some v) else lookupTot ts key := by
  induction ts with
  | nil => by_cases h : k = key <;> simp [addTo, lookupTot, mergeOpt, h]
  | cons hd tl ih =>
    obtain ⟨k', v'⟩ := hd
    by_cases h1 : k' = k
    · subst h1
      by_cases h2 : k' = key <;> simp [addTo, lookupTot, mergeOpt, h2]
    · by_cases h2 : k' = key
      · subst h2
        have h3 : ¬ k = k' := fun hh => h1 hh.symm
        simp [addTo, lookupTot, h1, h3]
      · simp [addTo, lookupTot, h1, h2, ih]

theorem lookupTot_addEdges (exL : List String) (key : String) :
    ∀ (es : List Edge) (ts : List (String × Int)),
      lookupTot (addEdges exL ts es) key
        = mergeOpt (lookupTot ts key) (edgesContrib exL key es) := by
  intro es
  induction es with
  | nil => intro ts; simp [addEdges, edgesContrib, mergeOpt_none_right]
  | cons e rest ih =>
    intro ts
    rw [addEdges, List.foldl_cons]
    show lookupTot (addEdges exL _ rest) key = _
    rw [ih]
    by_cases hx : exL.contains e.lang
    · rw [if_pos hx]
      have hx' : e.lang ∈ exL := by simpa using hx
      simp [edgesContrib, hx']
    · rw [if_neg hx, lookupTot_addTo]
      have hx' : ¬ e.lang ∈ exL := by simpa using hx
      by_cases hk : e.lang = key
      · rw [if_pos hk, mergeOpt_assoc]
        rw [hk] at hx'
        simp [edgesContrib, hx', hk]
      · rw [if_neg hk]
        simp [edgesContrib, hx', hk]

theorem lookupTot_addRepo (exR exL : List String) (key : String)
    (ts : List (String × Int)) (r : Repo) :
    lookupTot (addRepo exR exL ts r) key
      = mergeOpt (lookupTot ts key) (repoContrib exR exL key r) := by
  unfold addRepo repoContrib
  split
  · exact lookupTot_addEdges exL key (repoEdges r) ts
  · rw [mergeOpt_none_right]

theorem lookupTot_aggregate_fold (exR exL : List String) (key : String) :
    ∀ (repos : List Repo) (ts : List (String × Int)),
      lookupTot (repos.foldl (addRepo exR exL) ts) key
        = List.foldl mergeOpt (lookupTot ts key)
            (repos.map (repoContrib exR exL key)) := by
  intro repos
  induction repos with
  | nil => intro ts; simp
  | cons r rest ih =>
    intro ts
    rw [List.foldl_cons, ih, List.map_cons, List.foldl_cons, lookupTot_addRepo]

/-- C6: aggregating any permutation of the repository list with the same
exclusion sets yields the same totals as a language-to-bytes mapping
(accumulation is commutative), for every language key. -/
theorem aggregate_perm_invariant (exR exL : List String) {l l' : List Repo}
    (hp : l.Perm l') (key : String) :
    lookupTot (aggregate exR exL l) key = lookupTot (aggregate exR exL l') key := by
  unfold aggregate
  rw [lookupTot_aggregate_fold, lookupTot_aggregate_fold]
  exact (hp.map (repoContrib exR exL key)).foldl_eq _

/-- Witness for C6 on a concrete two-element permutation. -/
theorem aggregate_perm_invariant_witness :
    lookupTot (aggregate [] []
      [(⟨some "r2", false, .edges [⟨4, "Py"⟩]⟩ : Repo),
       (⟨some "r1", false, .edges [⟨10, "Py"⟩, ⟨7, "C"⟩]⟩ : Repo)]) "Py"
    = lookupTot (aggregate [] []
      [(⟨some "r1", false, .edges [⟨10, "Py"⟩, ⟨7, "C"⟩]⟩ : Repo),
       (⟨some "r2", false, .edges [⟨4, "Py"⟩]⟩ : Repo)]) "Py" :=
  aggregate_perm_invariant [] []
    (List.Perm.swap (⟨some "r1", false, .edges [⟨10, "Py"⟩, ⟨7, "C"⟩]⟩ : Repo)
      (⟨some "r2", false, .edges [⟨4, "Py"⟩]⟩ : Repo) []) "Py"

/-! ### Claim C10: repositories without language data -/

/-- C10: a repository whose `languages` field is missing, or whose `edges`
list is missing or `null`, contributes no bytes: removing it from anywhere in
the input leaves the aggregate unchanged (and the fold is a total function, so
aggregation completes without failing). -/
theorem aggregate_skips_languageless (exR exL : List String) (rs1 rs2 : List Repo)
    (r : Repo)
    (h : r.languages = .missing ∨ r.languages = .edgesMissing ∨ r.languages = .edgesNull) :
    aggregate exR exL (rs1 ++ r :: rs2) = aggregate exR exL (rs1 ++ rs2) := by
  unfold aggregate
  rw [List.foldl_append, List.foldl_append, List.foldl_cons]
  have he : repoEdges r = [] := by
    rcases h with h | h | h <;> simp [repoEdges, h]
  have hid : ∀ ts, addRepo exR exL ts r = ts := by
    intro ts
    unfold addRepo
    rw [he]
    simp [addEdges]
  rw [hid]

/-- Witness for C10: dropping a languages-less repository from a concrete list
does not change the totals. -/
theorem aggregate_skips_languageless_witness :
    aggregate [] [] [(⟨some "a", false, .edges [⟨10, "Py"⟩]⟩ : Repo),
        (⟨some "m", false, .missing⟩ : Repo),
        (⟨some "b", false, .edges [⟨5, "C"⟩]⟩ : Repo)]
      = aggregate [] [] [(⟨some "a", false, .edges [⟨10, "Py"⟩]⟩ : Repo),
        (⟨some "b", false, .edges [⟨5, "C"⟩]⟩ : Repo)] :=
  aggregate_skips_languageless [] [] [⟨some "a", false, .edges [⟨10, "Py"⟩]⟩]
    [⟨some "b", false, .edges [⟨5, "C"⟩]⟩] ⟨some "m", false, .missing⟩ (Or.inl rfl)

/-! ### The renderers (`pct`, `pct_str`, `bar`, `make_table`, `make_svg`)

Python floats are modelled by exact unreduced fractions: every value the
script computes (`size/total` and its scalings by `100`, `10`, `width`,
`bar_w`) is an integer-scaled quotient, and at the inputs the claims examine
the IEEE-double computation rounds to the same displayed digits and cell
counts as the exact value. -/

/-- An unreduced fraction `num / den` standing for a Python float value.
`den` is nonzero at every use site (`pct` guards the zero total). -/
structure Frac where
  num : Int
  den : Int
deriving DecidableEq

/-- Multiplication of a fraction by an integer (`p * 100`, `p * width`, …). -/
def Frac.mulInt (f : Frac) (k : Int) : Frac := ⟨f.num * k, f.den⟩

/-- `max(0.0, v)`: clamp a fraction to be non-negative. -/
def Frac.maxZero (f : Frac) : Frac := if f.num * f.den < 0 then ⟨0, 1⟩ else f

/-- Python `round()` — nearest integer, ties to even — of the exact value
`f.num / f.den` (for `f.den ≠ 0`). -/
def pyRound (f : Frac) : Int :=
  let n := if f.den < 0 then -f.num else f.num
  let d := if f.den < 0 then -f.den else f.den
  let q := Int.fdiv n d
  let r := n - q * d
  if 2 * r < d then q
  else if d < 2 * r then q + 1
  else if q % 2 = 0 then q else q + 1

/-- `pct`: `(size / total) if total else 0.0`. -/
def pct (size total : Int) : Frac :=
  if total ≠ 0 then ⟨size, total⟩ else ⟨0, 1⟩

/-- Decimal rendering of `t/10` with one decimal digit, as `f"{x:.1f}"`
prints the correctly-rounded scaled value `t`. -/
def fmtTenths (t : Int) : String :=
  if t < 0 then "-" ++ toString ((-t) / 10) ++ "." ++ toString ((-t) % 10)
  else toString (t / 10) ++ "." ++ toString (t % 10)

/-- `pct_str`: `f"{p*100:.1f}%"`. -/
def pct_str (p : Frac) : String :=
  fmtTenths (pyRound ((p.mulInt 100).mulInt 10)) ++ "%"

/-- `bar`: `"█" * filled + " " * (width - filled)` with
`filled = int(round(p * width))` (a negative `filled` empties the blocks and
widens the spaces exactly as Python string repetition does). -/
def bar (p : Frac) (width : Nat := 18) : String :=
  let filled : Int := pyRound (p.mulInt (width : Int))
  String.mk (List.replicate filled.toNat '█'
    ++ List.replicate ((width : Int) - filled).toNat ' ')

/-- `MAX_ROWS`. -/
def MAX_ROWS : Nat := 10

/-- The four header lines built by `make_table`. -/
def tableHeader : List String :=
  ["### 📊 Language usage", "", "| Language | Share | Usage |", "|---|---:|:---|"]

/-- One data row: `f"| {name} | {pct_str(p)} | `{bar(p)}` |"`. -/
def tableRow (name : String) (size total : Int) : String :=
  let p := pct size total
  "| " ++ name ++ " | " ++ pct_str p ++ " | `" ++ bar p ++ "` |"

/-- The `lines` list of `make_table` (header plus one row per item among the
first `MAX_ROWS`). -/
def tableLines (items : List (String × Int)) (total_bytes : Int) : List String :=
  tableHeader ++ (items.take MAX_ROWS).map (fun x => tableRow x.1 x.2 total_bytes)

/-- `make_table`: `"\n".join(lines)`. -/
def make_table (items : List (String × Int)) (total_bytes : Int) : String :=
  String.intercalate "\n" (tableLines items total_bytes)

/-- `html.escape(s, quote=True)` on one character. -/
def escChar : Char → List Char
  | '&' => "&amp;".toList
  | '<' => "&lt;".toList
  | '>' => "&gt;".toList
  | '"' => "&quot;".toList
  | '\'' => "&#x27;".toList
  | c => [c]

/-- `esc`: `html.escape(s, quote=True)`. -/
def esc (s : String) : String := String.mk (s.toList.flatMap escChar)

/-- Two-digit zero-padded rendering of `0 ≤ n < 100`. -/
def pad2 (n : Int) : String :=
  if n < 10 then "0" ++ toString n else toString n

/-- Decimal rendering of `t/100` with two decimal digits, as `f"{v:.2f}"`
prints the correctly-rounded scaled value `t`. -/
def fmtHundredths (t : Int) : String :=
  if t < 0 then "-" ++ toString ((-t) / 100) ++ "." ++ pad2 ((-t) % 100)
  else toString (t / 100) ++ "." ++ pad2 (t % 100)

/-- The font-family attribute value shared by every `<text>` element. -/
def fontFamily : String :=
  "ui-sans-serif, system-ui, -apple-system, Segoe UI, Roboto, Arial"

/-- The four leading `parts` of `make_svg` (the `<svg>` open tag, background
rect, title and subtitle). -/
def svgHead (nitems : Nat) (dark : Bool) : List String :=
  let width : Nat := 740
  let left : Nat := 18
  let header_h : Nat := 46
  let row_h : Nat := 26
  let rows : Nat := min MAX_ROWS nitems
  let height : Nat := header_h + rows * row_h + 18
  let bg := if dark then "#0d1117" else "#ffffff"
  let fg := if dark then "#e6edf3" else "#24292f"
  let mute := if dark then "#8b949e" else "#57606a"
  let title := "Languages used across repositories"
  ["<svg xmlns=\"http://www.w3.org/2000/svg\" width=\"" ++ toString width
      ++ "\" height=\"" ++ toString height ++ "\" viewBox=\"0 0 " ++ toString width
      ++ " " ++ toString height ++ "\">",
   "<rect x=\"0\" y=\"0\" width=\"" ++ toString width ++ "\" height=\""
      ++ toString height ++ "\" rx=\"14\" fill=\"" ++ bg ++ "\"/>",
   "<text x=\"" ++ toString left ++ "\" y=\"30\" fill=\"" ++ fg
      ++ "\" font-size=\"18\" font-family=\"" ++ fontFamily ++ "\">"
      ++ esc title ++ "</text>",
   "<text x=\"" ++ toString left ++ "\" y=\"48\" fill=\"" ++ mute
      ++ "\" font-size=\"12\" font-family=\"" ++ fontFamily
      ++ "\">GitHub Linguist byte counts</text>"]

/-- The four `parts` appended for displayed row `i` holding `(name, size)`. -/
def svgRowParts (total_bytes : Int) (dark : Bool) (i : Nat) (name : String)
    (size : Int) : List String :=
  let header_h : Nat := 46
  let row_h : Nat := 26
  let fg := if dark then "#e6edf3" else "#24292f"
  let mute := if dark then "#8b949e" else "#57606a"
  let bar_bg := if dark then "#30363d" else "#eaeef2"
  let bar_fg := if dark then "#58a6ff" else "#0969da"
  let name_x : Nat := 18
  let pct_x : Nat := 210
  let bar_x : Nat := 240
  let bar_w : Nat := 740 - bar_x - 18
  let p := pct size total_bytes
  let y := header_h + i * row_h
  ["<text x=\"" ++ toString name_x ++ "\" y=\"" ++ toString (y + 17) ++ "\" fill=\""
      ++ fg ++ "\" font-size=\"14\" font-family=\"" ++ fontFamily ++ "\">"
      ++ esc name ++ "</text>",
   "<text x=\"" ++ toString pct_x ++ "\" y=\"" ++ toString (y + 17) ++ "\" fill=\""
      ++ mute ++ "\" font-size=\"13\" text-anchor=\"end\" font-family=\""
      ++ fontFamily ++ "\">" ++ esc (pct_str p) ++ "</text>",
   "<rect x=\"" ++ toString bar_x ++ "\" y=\"" ++ toString (y + 8) ++ "\" width=\""
      ++ toString bar_w ++ "\" height=\"10\" rx=\"5\" fill=\"" ++ bar_bg ++ "\"/>",
   "<rect x=\"" ++ toString bar_x ++ "\" y=\"" ++ toString (y + 8) ++ "\" width=\""
      ++ fmtHundredths (pyRound (((p.mulInt (bar_w : Int)).maxZero).mulInt 100))
      ++ "\" height=\"10\" rx=\"5\" fill=\"" ++ bar_fg ++ "\"/>"]

/-- The full `parts` list assembled by `make_svg`. -/
def svgParts (items : List (String × Int)) (total_bytes : Int) (dark : Bool) :
    List String :=
  let rows : Nat := min MAX_ROWS items.length
  svgHead items.length dark
    ++ (items.take rows).enum.flatMap
        (fun ix => svgRowParts total_bytes dark ix.1 ix.2.1 ix.2.2)
    ++ ["</svg>"]

/-- `make_svg`: the parts joined with `"\n"` (this string is what is written
to the output file; the path and theme only select file name and palette). -/
def make_svg (items : List (String × Int)) (total_bytes : Int) (dark : Bool) :
    String :=
  String.intercalate "\n" (svgParts items total_bytes dark)

/-- `sorted(totals.items(), key=lambda kv: kv[1], reverse=True)` — a stable
sort placing larger byte sizes first (insertion sort is stable, like Python's
sort). -/
def sortDesc (l : List (String × Int)) : List (String × Int) :=
  l.insertionSort (fun a b => b.2 ≤ a.2)

/-- `total_bytes = sum(size for _, size in items)`. -/
def totalBytesOf (items : List (String × Int)) : Int :=
  (items.map (fun x => x.2)).sum

/-! ### Claims C7, C8, C9: rendering -/

/-- C7: when the grand total is zero, `pct` takes its guarded branch (no
division is attempted), every rendered row of the table shows `0.0%`, and the
bar renders with zero filled cells out of 18; the whole computation is total. -/
theorem zero_total_renders_zero (items : List (String × Int)) :
    (∀ s : Int, pct s 0 = ⟨0, 1⟩)
    ∧ pct_str ⟨0, 1⟩ = "0.0%"
    ∧ bar ⟨0, 1⟩ = String.mk (List.replicate 18 ' ')
    ∧ make_table items 0 = String.intercalate "\n" (tableHeader
        ++ (items.take MAX_ROWS).map (fun x =>
            "| " ++ x.1 ++ " | 0.0% | `" ++ String.mk (List.replicate 18 ' ')
              ++ "` |")) := by
  have h1 : pct_str ⟨0, 1⟩ = "0.0%" := by decide
  have h2 : bar ⟨0, 1⟩ = String.mk (List.replicate 18 ' ') := by decide
  refine ⟨fun s => by simp [pct], h1, h2, ?_⟩
  unfold make_table tableLines
  have hrow : (items.take MAX_ROWS).map (fun x => tableRow x.1 x.2 0)
      = (items.take MAX_ROWS).map (fun x =>
          "| " ++ x.1 ++ " | 0.0% | `" ++ String.mk (List.replicate 18 ' ')
            ++ "` |") := by
    apply List.map_congr_left
    intro x _
    simp only [tableRow, pct]
    rw [if_neg (by simp : ¬ (0:Int) ≠ 0), h1, h2]
    simp only [String.append_assoc]
    congr 1
  rw [hrow]

/-- C8: for the input totals {A: 60, B: 30, C: 10} with no exclusions and a
display cap of at least 3, the pipeline leaves the order A, B, C, renders the
shares 60.0%, 30.0%, 10.0%, and fills 11, 5 and 2 of the 18 bar cells. -/
theorem example_totals_render :
    3 ≤ MAX_ROWS
    ∧ sortDesc [("A", 60), ("B", 30), ("C", 10)] = [("A", 60), ("B", 30), ("C", 10)]
    ∧ totalBytesOf [("A", 60), ("B", 30), ("C", 10)] = 100
    ∧ make_table [("A", 60), ("B", 30), ("C", 10)] 100
        = "### 📊 Language usage\n\n| Language | Share | Usage |\n|---|---:|:---|\n| A | 60.0% | `███████████       ` |\n| B | 30.0% | `█████             ` |\n| C | 10.0% | `██                ` |"
    ∧ (bar (pct 60 100)).toList.count '█' = 11
    ∧ (bar (pct 60 100)).toList.length = 18
    ∧ (bar (pct 30 100)).toList.count '█' = 5
    ∧ (bar (pct 30 100)).toList.length = 18
    ∧ (bar (pct 10 100)).toList.count '█' = 2
    ∧ (bar (pct 10 100)).toList.length = 18 := by
  set_option maxRecDepth 8000 in
  refine ⟨by decide, by decide, by decide, by decide, by decide, by decide,
    by decide, by decide, by decide, by decide⟩

instance : IsTotal (String × Int) (fun a b => b.2 ≤ a.2) :=
  ⟨fun a b => le_total b.2 a.2⟩

instance : IsTrans (String × Int) (fun a b => b.2 ≤ a.2) :=
  ⟨fun _ _ _ hab hbc => le_trans hbc hab⟩

theorem length_flatMap_svgRowParts (tb : Int) (d : Bool) :
    ∀ l : List (Nat × (String × Int)),
      (l.flatMap (fun ix => svgRowParts tb d ix.1 ix.2.1 ix.2.2)).length
        = 4 * l.length := by
  intro l
  induction l with
  | nil => rfl
  | cons x xs ih =>
    rw [List.flatMap_cons, List.length_append, ih]
    have h4 : (svgRowParts tb d x.1 x.2.1 x.2.2).length = 4 := rfl
    rw [h4, List.length_cons]
    omega

/-- C9: with more distinct languages than the display cap, exactly `MAX_ROWS`
data rows appear in the table lines and in each SVG variant's parts, the
displayed rows are in descending byte order, and the denominator used for
every displayed row's percentage is the grand total over all languages,
including the truncated tail. -/
theorem truncation_cap (totals : List (String × Int)) (h : MAX_ROWS < totals.length) :
    (tableLines (sortDesc totals) (totalBytesOf (sortDesc totals))).length
        = 4 + MAX_ROWS
    ∧ (svgParts (sortDesc totals) (totalBytesOf (sortDesc totals)) false).length
        = 5 + 4 * MAX_ROWS
    ∧ (svgParts (sortDesc totals) (totalBytesOf (sortDesc totals)) true).length
        = 5 + 4 * MAX_ROWS
    ∧ List.Sorted (fun a b => b.2 ≤ a.2) ((sortDesc totals).take MAX_ROWS)
    ∧ totalBytesOf (sortDesc totals) = totalBytesOf totals
    ∧ tableLines (sortDesc totals) (totalBytesOf (sortDesc totals))
        = tableHeader ++ ((sortDesc totals).take MAX_ROWS).map
            (fun x => tableRow x.1 x.2 (totalBytesOf totals)) := by
  have hlen : (sortDesc totals).length = totals.length :=
    (List.perm_insertionSort _ totals).length_eq
  have htot : totalBytesOf (sortDesc totals) = totalBytesOf totals := by
    unfold totalBytesOf
    exact ((List.perm_insertionSort _ totals).map _).sum_eq
  have htake : ((sortDesc totals).take MAX_ROWS).length = MAX_ROWS := by
    rw [List.length_take, hlen]
    omega
  have hmin : min MAX_ROWS (sortDesc totals).length = MAX_ROWS := by
    rw [hlen]
    omega
  refine ⟨?_, ?_, ?_, ?_, htot, ?_⟩
  · unfold tableLines
    rw [List.length_append, List.length_map, htake]
    rfl
  · simp only [svgParts, hmin]
    rw [List.length_append, List.length_append, length_flatMap_svgRowParts,
      List.enum_length, htake]
    rfl
  · simp only [svgParts, hmin]
    rw [List.length_append, List.length_append, length_flatMap_svgRowParts,
      List.enum_length, htake]
    rfl
  · exact List.Pairwise.sublist (List.take_sublist _ _)
      (List.sorted_insertionSort _ totals)
  · unfold tableLines
    rw [htot]

/-- Witness for C9 at a concrete eleven-language aggregate. -/
theorem truncation_cap_witness :
    (tableLines
        (sortDesc [("L1", 11), ("L2", 10), ("L3", 9), ("L4", 8), ("L5", 7),
          ("L6", 6), ("L7", 5), ("L8", 4), ("L9", 3), ("L10", 2), ("L11", 1)])
        (totalBytesOf (sortDesc [("L1", 11), ("L2", 10), ("L3", 9), ("L4", 8),
          ("L5", 7), ("L6", 6), ("L7", 5), ("L8", 4), ("L9", 3), ("L10", 2),
          ("L11", 1)]))).length = 4 + MAX_ROWS :=
  (truncation_cap [("L1", 11), ("L2", 10), ("L3", 9), ("L4", 8), ("L5", 7),
    ("L6", 6), ("L7", 5), ("L8", 4), ("L9", 3), ("L10", 2), ("L11", 1)]
    (by decide)).1

end LangStats
